import Mathlib

/-!
Shallow embedding of the image-based inference pipeline of the `flavor`
repository (`flavor/serve/inference/base_aicoco_inference_model.py`), and
proofs of the specification claims about it.

Python strings are embedded as Lean `String`; the substring test `a in b`
and `str.replace("/", "_")` are re-implemented below on `List Char`.
The nondeterministic `nanoid.generate()` is embedded as an explicit id
source `idGen : Nat → String`: the i-th call of `generate()` during one
invocation returns `idGen i`; two separate invocations may use different
sources, which models the freshness of the generated ids.
-/

/-- Matches `needle` against the first characters of `hay`
(the prefix test used by the substring search). -/
def headMatch : List Char → List Char → Bool
  | [], _ => true
  | _ :: _, [] => false
  | a :: as, b :: bs => a = b && headMatch as bs

/-- `hasSub needle hay` : `needle` occurs contiguously inside `hay`;
embeds Python `needle in hay` on strings. -/
def hasSub (needle : List Char) : List Char → Bool
  | [] => needle.isEmpty
  | c :: rest => headMatch needle (c :: rest) || hasSub needle rest

/-- Python `needle in hay` for strings. -/
def strContains (hay needle : String) : Bool :=
  hasSub needle.toList hay.toList

/-- Python `s.replace("/", "_")`. -/
def normalizeName (s : String) : String :=
  String.mk (s.toList.map fun c => if c = '/' then '_' else c)

/-- The AiCOCO image descriptor (`AiImage`).  The `flavor.serve.models`
module is not part of the analysed sources; the fields are those of the
dict literal synthesized in `_set_images` (lines 136-142) and of the
spec's Image Descriptor data model: id, file_name, index,
category_ids, regressions. -/
structure AiImage where
  id : String
  index : Nat
  file_name : String
  category_ids : Option (List String)
  regressions : Option (List String)
deriving DecidableEq

/-- A default descriptor, used only as the `getD` fallback in statements
whose hypotheses force the access in bounds. -/
def dIm : AiImage :=
  { id := "", index := 0, file_name := "", category_ids := none, regressions := none }

/-- Errors raised by `_set_images`: `matchError` embeds the
`Exception(f"Filename {file} not matched.")` raised on `StopIteration`
(the spec's `MatchError`), `shapeMismatch` the `ValueError` raised for
unsupported length combinations (the spec's `ShapeMismatchError`). -/
inductive SetImagesError where
  | matchError (file : String)
  | shapeMismatch (nFiles nImages : Nat)
deriving DecidableEq

/-- Does the descriptor `im` match `file`?  The comprehension guard
`format_image["file_name"].replace("/", "_") in file` of line 121. -/
def imageMatches (file : String) (im : AiImage) : Bool :=
  strContains file (normalizeName im.file_name)

/-- The equal-length branch of `_set_images` (lines 115-125): for each
file, in `files` order, append the first descriptor of `images` whose
normalized `file_name` is a substring of the file; raise on the first
file with no matching descriptor. -/
def matchFiles (images : List AiImage) : List String → Except SetImagesError (List AiImage)
  | [] => .ok []
  | f :: fs =>
      match images.find? (imageMatches f) with
      | some im => (matchFiles images fs).map (im :: ·)
      | none => .error (.matchError f)

/-- The files-only branch of `_set_images` (lines 134-143), with `k`
counting the `generate()` calls already made: one synthesized
descriptor per file, with the next generated id, constant index 0, the
file name, and null links. -/
def synthImagesFrom (idGen : Nat → String) (k : Nat) : List String → List AiImage
  | [] => []
  | f :: fs =>
      { id := idGen k, index := 0, file_name := f, category_ids := none, regressions := none } ::
        synthImagesFrom idGen (k + 1) fs

/-- The files-only branch of `_set_images`, starting from the first
generated id. -/
def synthImages (idGen : Nat → String) (files : List String) : List AiImage :=
  synthImagesFrom idGen 0 files

/-- `BaseAiCOCOImageInferenceModel._set_images` (lines 99-147).  The
result on success is the final value of the `self.images` attribute —
an `Option` because the attribute is dynamically typed and `__call__`
later tests it against `None` — paired with a flag recording whether
`warnings.warn` was invoked.  Python truthiness of the two list
arguments is `!·.isEmpty`. -/
def setImages (idGen : Nat → String) (files : List String) (images : List AiImage) :
    Except SetImagesError (Option (List AiImage) × Bool) :=
  if !files.isEmpty && !images.isEmpty then
    if files.length = images.length then
      (matchFiles images files).map (fun r => (some r, false))
    else if files.length = 1 && decide (images.length > 1) then
      .ok (some images, false)
    else
      .error (.shapeMismatch files.length images.length)
  else if !files.isEmpty then
    .ok (some (synthImages idGen files), false)
  else if !images.isEmpty then
    .ok (some images, false)
  else
    .ok (some [], true)

/-- A nontrivial concrete descriptor used by witnesses. -/
def imA : AiImage :=
  { id := "idA", index := 0, file_name := "a", category_ids := none, regressions := none }

/-- A second concrete descriptor used by witnesses. -/
def imB : AiImage :=
  { id := "idB", index := 1, file_name := "b", category_ids := none, regressions := none }

/-- A concrete id source used by witnesses and counterexamples. -/
def gId : Nat → String := fun n => toString n

/-- C6: singleton file, several images: the images are returned
unchanged, without warning. -/
theorem setImages_singleton_file (idGen : Nat → String) (f : String)
    (images : List AiImage) (h : images.length > 1) :
    setImages idGen [f] images = .ok (some images, false) := by
  unfold setImages
  have hne : images ≠ [] := by
    intro he; rw [he] at h; exact absurd h (by decide)
  have h1 : images.isEmpty = false := by
    cases images with
    | nil => exact absurd rfl hne
    | cons a t => rfl
  have hlen : ¬ (1 = images.length) := by omega
  simp [h1, hlen, h]

/-- Witness for `setImages_singleton_file` at a concrete input. -/
theorem setImages_singleton_file_witness :
    setImages gId ["vol.dcm"] [imA, imB] = .ok (some [imA, imB], false) :=
  setImages_singleton_file gId "vol.dcm" [imA, imB] (by decide)

/-- C4: both lists non-empty, lengths differ, and not the
singleton-file / many-images shape: `_set_images` raises the
`ValueError` embedded as `shapeMismatch` (the spec's
`ShapeMismatchError`). -/
theorem setImages_shape_mismatch (idGen : Nat → String)
    (files : List String) (images : List AiImage)
    (hf : files ≠ []) (hi : images ≠ [])
    (hne : files.length ≠ images.length)
    (hns : ¬ (files.length = 1 ∧ images.length > 1)) :
    setImages idGen files images = .error (.shapeMismatch files.length images.length) := by
  have hf' : files.isEmpty = false := by
    cases files with
    | nil => exact absurd rfl hf
    | cons a t => rfl
  have hi' : images.isEmpty = false := by
    cases images with
    | nil => exact absurd rfl hi
    | cons a t => rfl
  have hB : (decide (files.length = 1) && decide (images.length > 1)) = false := by
    by_cases h1 : files.length = 1
    · have h2 : ¬ (images.length > 1) := fun hgt => hns ⟨h1, hgt⟩
      simp [h1, h2]
    · simp [h1]
  simp [setImages, hf', hi', hne, hB]

/-- Witness for `setImages_shape_mismatch`: Scenario D of the spec,
two files against one image. -/
theorem setImages_shape_mismatch_witness :
    setImages gId ["x", "y"] [imA] = .error (.shapeMismatch 2 1) :=
  setImages_shape_mismatch gId ["x", "y"] [imA]
    (by decide) (by decide) (by decide) (by decide)

/-- C8: with both `files` and `images` empty, `_set_images` raises no
error: it yields the empty image list with the warning flag set; and
every successful run that sets the warning flag is this case, so the
warning is emitted in no other situation. -/
theorem setImages_warn_iff_both_empty (idGen : Nat → String) :
    setImages idGen [] [] = .ok (some [], true) ∧
    ∀ (files : List String) (images : List AiImage) (r : Option (List AiImage)) (w : Bool),
      setImages idGen files images = .ok (r, w) → w = true →
      files = [] ∧ images = [] := by
  constructor
  · rfl
  · intro files images r w hok hw
    subst hw
    cases files with
    | cons f fs =>
        cases images with
        | nil => simp [setImages] at hok
        | cons i is =>
            simp only [setImages, List.isEmpty_cons, Bool.not_false, Bool.and_self,
              if_true] at hok
            by_cases hlen : (f :: fs).length = (i :: is).length
            · rw [if_pos hlen] at hok
              cases hmf : matchFiles (i :: is) (f :: fs) with
              | ok v => rw [hmf] at hok; simp [Except.map] at hok
              | error e => rw [hmf] at hok; simp [Except.map] at hok
            · rw [if_neg hlen] at hok
              cases hb : (decide ((f :: fs).length = 1) && decide ((i :: is).length > 1)) with
              | true => rw [hb] at hok; simp at hok
              | false => rw [hb] at hok; simp at hok
    | nil =>
        cases images with
        | nil => exact ⟨rfl, rfl⟩
        | cons i is => simp [setImages] at hok

/-- Witness for `setImages_warn_iff_both_empty` at a concrete input:
both parts applied, the second at the empty/empty run itself. -/
theorem setImages_warn_iff_both_empty_witness :
    setImages gId [] [] = .ok (some [], true) ∧ ([] : List String) = [] :=
  ⟨(setImages_warn_iff_both_empty gId).1,
   ((setImages_warn_iff_both_empty gId).2 [] [] (some []) true
      (setImages_warn_iff_both_empty gId).1 rfl).1⟩

lemma synthImagesFrom_length (idGen : Nat → String) :
    ∀ (k : Nat) (files : List String), (synthImagesFrom idGen k files).length = files.length := by
  intro k files
  induction files generalizing k with
  | nil => rfl
  | cons f fs ih => simp [synthImagesFrom, ih]

lemma synthImagesFrom_getD (idGen : Nat → String) :
    ∀ (k : Nat) (files : List String) (i : Nat), i < files.length →
      (synthImagesFrom idGen k files).getD i dIm =
        { id := idGen (k + i), index := 0, file_name := files.getD i "",
          category_ids := none, regressions := none } := by
  intro k files
  induction files generalizing k with
  | nil => intro i hi; exact absurd hi (Nat.not_lt_zero i)
  | cons f fs ih =>
      intro i hi
      cases i with
      | zero => simp [synthImagesFrom]
      | succ n =>
          have hn : n < fs.length := by simpa using hi
          have := ih (k + 1) n hn
          simpa [synthImagesFrom, Nat.add_assoc, Nat.add_comm 1 n] using this

/-- C5 (amended): files-only reconciliation synthesizes exactly one
descriptor per file, in `files` order: the i-th descriptor carries the
i-th freshly generated id, the i-th file name, null category and
regression links, and the constant index 0 — the code assigns the
literal 0, not the sequential position. -/
theorem setImages_files_only (idGen : Nat → String) (files : List String) (hf : files ≠ []) :
    setImages idGen files [] = .ok (some (synthImages idGen files), false) ∧
    (synthImages idGen files).length = files.length ∧
    ∀ i, i < files.length →
      (synthImages idGen files).getD i dIm =
        { id := idGen i, index := 0, file_name := files.getD i "",
          category_ids := none, regressions := none } := by
  refine ⟨?_, synthImagesFrom_length idGen 0 files, ?_⟩
  · cases files with
    | nil => exact absurd rfl hf
    | cons f fs => simp [setImages]
  · intro i hi
    simpa using synthImagesFrom_getD idGen 0 files i hi

/-- The two descriptors synthesized from `files = ["a", "b"]` under the
concrete id source `gId`. -/
def synthAB : List AiImage :=
  [{ id := "0", index := 0, file_name := "a", category_ids := none, regressions := none },
   { id := "1", index := 0, file_name := "b", category_ids := none, regressions := none }]

/-- Witness for `setImages_files_only` at a concrete input. -/
theorem setImages_files_only_witness :
    setImages gId ["a", "b"] [] = .ok (some synthAB, false) := by
  have h := setImages_files_only gId ["a", "b"] (by decide)
  exact h.1

/-- C5 counterexample: the claim says the i-th synthesized descriptor
has index i, but for `files = ["a", "b"]` the second descriptor
(position 1) has index 0, not 1. -/
theorem setImages_files_only_index_cex :
    setImages gId ["a", "b"] [] = .ok (some synthAB, false) ∧
    (synthAB.getD 1 dIm).index = 0 ∧ (synthAB.getD 1 dIm).index ≠ 1 :=
  ⟨rfl, rfl, by decide⟩

lemma matchFiles_spec (images : List AiImage) (files : List String) :
    (∃ res, matchFiles images files = .ok res ∧ res.length = files.length ∧
      ∀ j (hj : j < files.length),
        images.find? (imageMatches (files.get ⟨j, hj⟩)) = some (res.getD j dIm)) ∨
    (∃ f, f ∈ files ∧ (∀ im ∈ images, imageMatches f im = false) ∧
      matchFiles images files = .error (.matchError f)) := by
  induction files with
  | nil => exact Or.inl ⟨[], rfl, rfl, fun j hj => absurd hj (Nat.not_lt_zero j)⟩
  | cons f fs ih =>
      cases hfind : images.find? (imageMatches f) with
      | none =>
          refine Or.inr ⟨f, List.mem_cons_self f fs, ?_, ?_⟩
          · intro im him
            simpa using List.find?_eq_none.mp hfind im him
          · simp [matchFiles, hfind]
      | some im =>
          rcases ih with ⟨res, heq, hlen, hidx⟩ | ⟨g, hg, hno, herr⟩
          · refine Or.inl ⟨im :: res, ?_, by simp [hlen], ?_⟩
            · simp [matchFiles, hfind, heq, Except.map]
            · intro j hj
              cases j with
              | zero => simpa using hfind
              | succ n =>
                  have hn : n < fs.length := by simpa using hj
                  simpa using hidx n hn
          · refine Or.inr ⟨g, List.mem_cons_of_mem f hg, hno, ?_⟩
            simp [matchFiles, hfind, herr, Except.map]

/-- C1: equal-length non-empty reconciliation.  Either every file has a
matching descriptor, and `_set_images` returns, in `files` order, for
the j-th file the first descriptor of `images` whose normalized
`file_name` is a substring of that file (so each selected descriptor
matches its file and comes from `images`); or some file matches no
descriptor, and `_set_images` raises the exception embedded as
`matchError` (the spec's `MatchError`). -/
theorem setImages_equal_length (idGen : Nat → String) (files : List String)
    (images : List AiImage) (hf : files ≠ []) (hi : images ≠ [])
    (hlen : files.length = images.length) :
    (∃ res, setImages idGen files images = .ok (some res, false) ∧
      res.length = files.length ∧
      ∀ j (hj : j < files.length),
        res.getD j dIm ∈ images ∧
        imageMatches (files.get ⟨j, hj⟩) (res.getD j dIm) = true ∧
        images.find? (imageMatches (files.get ⟨j, hj⟩)) = some (res.getD j dIm)) ∨
    (∃ f, f ∈ files ∧ (∀ im ∈ images, imageMatches f im = false) ∧
      setImages idGen files images = .error (.matchError f)) := by
  have hf' : files.isEmpty = false := by
    cases files with
    | nil => exact absurd rfl hf
    | cons a t => rfl
  have hi' : images.isEmpty = false := by
    cases images with
    | nil => exact absurd rfl hi
    | cons a t => rfl
  have hset : setImages idGen files images =
      (matchFiles images files).map (fun r => (some r, false)) := by
    simp [setImages, hf', hi', hlen]
  rcases matchFiles_spec images files with ⟨res, heq, hl, hidx⟩ | ⟨f, hmem, hno, herr⟩
  · refine Or.inl ⟨res, ?_, hl, ?_⟩
    · rw [hset, heq]; rfl
    · intro j hj
      have h1 := hidx j hj
      exact ⟨List.mem_of_find?_eq_some h1, List.find?_some h1, h1⟩
  · exact Or.inr ⟨f, hmem, hno, by rw [hset, herr]; rfl⟩

/-- Witness for `setImages_equal_length` at the spec's Scenario B:
`files = ["b.png", "a.png"]` against descriptors named "a" and "b" —
the result follows the `files` order. -/
theorem setImages_equal_length_witness :
    setImages gId ["b.png", "a.png"] [imA, imB] = .ok (some [imB, imA], false) := by
  have h := setImages_equal_length gId ["b.png", "a.png"] [imA, imB]
    (by decide) (by decide) rfl
  exact rfl

/-- Python `list.index` on strings: the index of the first occurrence,
`none` where Python raises `ValueError` (name absent). -/
def pyIndex : List String → String → Option Nat
  | [], _ => none
  | a :: t, f => if a = f then some 0 else (pyIndex t f).map (· + 1)

/-- `pyIndex` with fallback 0; used only in statements whose hypotheses
put the name in the list. -/
def idxD (files : List String) (f : String) : Nat :=
  (pyIndex files f).getD 0

/-- Errors raised by `_update_images`: both `ValueError`s of lines
180-182 and 187-189 (the spec's `LengthMismatchError`) are embedded as
`lengthMismatch`, the `ValueError` of `list.index` on an absent name as
`nameNotFound`, and the `IndexError` of `self.images[i]` as
`indexOut`. -/
inductive UpdateError where
  | lengthMismatch
  | nameNotFound (f : String)
  | indexOut (i : Nat)
deriving DecidableEq

/-- The loop of `_update_images` (lines 183-185): `files.index(file)`
for each modified filename, raising at the first absent name. -/
def lookAll (files : List String) : List String → Except UpdateError (List Nat)
  | [] => .ok []
  | f :: rest =>
      match pyIndex files f with
      | some i => (lookAll files rest).map (i :: ·)
      | none => .error (.nameNotFound f)

/-- The comprehension of line 190:
`[self.images[i] for i in updated_indices]`. -/
def fetchAll (images : List AiImage) : List Nat → Except UpdateError (List AiImage)
  | [] => .ok []
  | i :: rest =>
      match images.get? i with
      | some im => (fetchAll images rest).map (im :: ·)
      | none => .error (.indexOut i)

/-- `BaseAiCOCOImageInferenceModel._update_images` (lines 168-190).
When `modified_filenames` is `None` or `files` is falsy the guard of
line 178 skips the body and the images are returned unchanged. -/
def updateImages (images : List AiImage) (files : List String)
    (modified : Option (List String)) : Except UpdateError (List AiImage) :=
  match modified with
  | none => .ok images
  | some mf =>
      if files.isEmpty then .ok images
      else if images.length ≠ mf.length then .error .lengthMismatch
      else
        match lookAll files mf with
        | .error e => .error e
        | .ok idxs =>
            if images.length ≠ idxs.length then .error .lengthMismatch
            else fetchAll images idxs

lemma pyIndex_some : ∀ (files : List String) (f : String) (i : Nat),
    pyIndex files f = some i → i < files.length ∧ files.getD i "" = f := by
  intro files
  induction files with
  | nil => intro f i h; exact absurd h (by simp [pyIndex])
  | cons a t ih =>
      intro f i h
      by_cases ha : a = f
      · simp [pyIndex, ha] at h
        subst h
        exact ⟨Nat.succ_pos _, ha⟩
      · simp [pyIndex, ha] at h
        rcases h with ⟨j, hj, hji⟩
        rcases ih f j hj with ⟨h1, h2⟩
        subst hji
        exact ⟨by simp only [List.length_cons]; omega, by simpa using h2⟩

lemma pyIndex_mem : ∀ (files : List String) (f : String),
    f ∈ files → ∃ i, pyIndex files f = some i := by
  intro files
  induction files with
  | nil => intro f h; exact absurd h (List.not_mem_nil f)
  | cons a t ih =>
      intro f h
      by_cases ha : a = f
      · exact ⟨0, by simp [pyIndex, ha]⟩
      · have hmem : f ∈ t := by
          rcases List.mem_cons.mp h with h1 | h1
          · exact absurd h1.symm ha
          · exact h1
        rcases ih f hmem with ⟨i, hi⟩
        exact ⟨i + 1, by simp [pyIndex, ha, hi]⟩

lemma pyIndex_not_mem : ∀ (files : List String) (f : String),
    f ∉ files → pyIndex files f = none := by
  intro files
  induction files with
  | nil => intro f _; rfl
  | cons a t ih =>
      intro f h
      have ha : ¬ (a = f) := fun he => h (he ▸ List.mem_cons_self a t)
      have ht : f ∉ t := fun hm => h (List.mem_cons_of_mem a hm)
      simp [pyIndex, ha, ih f ht]

lemma pyIndex_get_nodup : ∀ (files : List String), files.Nodup →
    ∀ (k : Nat) (hk : k < files.length),
      pyIndex files (files.get ⟨k, hk⟩) = some k := by
  intro files
  induction files with
  | nil => intro _ k hk; exact absurd hk (Nat.not_lt_zero k)
  | cons a t ih =>
      intro hnd k hk
      cases k with
      | zero => simp [pyIndex]
      | succ n =>
          have hn : n < t.length := by simpa using hk
          have hmem : t.get ⟨n, hn⟩ ∈ t := List.get_mem t n hn
          have ha : ¬ (a = t.get ⟨n, hn⟩) := by
            intro he
            exact (List.nodup_cons.mp hnd).1 (he ▸ hmem)
          have ht : t.Nodup := (List.nodup_cons.mp hnd).2
          have hstep : pyIndex (a :: t) (t.get ⟨n, hn⟩) =
              (pyIndex t (t.get ⟨n, hn⟩)).map (· + 1) := by
            show (if a = t.get ⟨n, hn⟩ then some 0
              else (pyIndex t (t.get ⟨n, hn⟩)).map (· + 1)) = _
            rw [if_neg ha]
          have hget : (a :: t).get ⟨n + 1, hk⟩ = t.get ⟨n, hn⟩ := rfl
          rw [hget, hstep, ih ht n hn]
          rfl

lemma lookAll_ok_of_mem : ∀ (files mf : List String),
    (∀ f ∈ mf, f ∈ files) →
    lookAll files mf = .ok (mf.map (idxD files)) := by
  intro files mf
  induction mf with
  | nil => intro _; rfl
  | cons f rest ih =>
      intro h
      rcases pyIndex_mem files f (h f (List.mem_cons_self f rest)) with ⟨i, hi⟩
      have hr := ih (fun g hg => h g (List.mem_cons_of_mem f hg))
      simp [lookAll, hi, hr, Except.map, idxD]

lemma lookAll_err_of_not_mem : ∀ (files mf : List String),
    (∃ f, f ∈ mf ∧ f ∉ files) →
    ∃ g, lookAll files mf = .error (.nameNotFound g) := by
  intro files mf
  induction mf with
  | nil => intro h; rcases h with ⟨f, hf, _⟩; exact absurd hf (List.not_mem_nil f)
  | cons f rest ih =>
      intro h
      by_cases hf : f ∈ files
      · rcases h with ⟨g, hg, hgn⟩
        have hgr : g ∈ rest := by
          rcases List.mem_cons.mp hg with h1 | h1
          · exact absurd (h1 ▸ hf) hgn
          · exact h1
        rcases ih ⟨g, hgr, hgn⟩ with ⟨g', hg'⟩
        rcases pyIndex_mem files f hf with ⟨i, hi⟩
        exact ⟨g', by simp [lookAll, hi, hg', Except.map]⟩
      · exact ⟨f, by simp [lookAll, pyIndex_not_mem files f hf]⟩

lemma lookAll_length : ∀ (files mf : List String) (idxs : List Nat),
    lookAll files mf = .ok idxs → idxs.length = mf.length := by
  intro files mf
  induction mf with
  | nil =>
      intro idxs h
      simp only [lookAll] at h
      cases h
      rfl
  | cons f rest ih =>
      intro idxs h
      simp only [lookAll] at h
      cases hi : pyIndex files f with
      | none => rw [hi] at h; simp at h
      | some i =>
          rw [hi] at h
          cases hr : lookAll files rest with
          | error e => rw [hr] at h; simp [Except.map] at h
          | ok v =>
              rw [hr] at h
              simp [Except.map] at h
              subst h
              simp [ih v hr]

lemma fetchAll_ok : ∀ (images : List AiImage) (idxs : List Nat),
    (∀ i ∈ idxs, i < images.length) →
    fetchAll images idxs = .ok (idxs.map fun i => images.getD i dIm) := by
  intro images idxs
  induction idxs with
  | nil => intro _; rfl
  | cons i rest ih =>
      intro h
      have hi : i < images.length := h i (List.mem_cons_self i rest)
      have hget : images.get? i = some (images.get ⟨i, hi⟩) := List.get?_eq_get hi
      have hD : images.getD i dIm = images.get ⟨i, hi⟩ := List.getD_eq_getElem images dIm hi
      have hr := ih (fun j hj => h j (List.mem_cons_of_mem i hj))
      simp only [fetchAll]
      rw [hget, hr]
      simp only [List.map_cons]
      rw [hD]
      rfl

/-- C2 (amended): the `_update_images` contract.  Failure clause: when
`files` is non-empty, a length mismatch between `images` and
`modified_filenames`, or a modified filename absent from `files`,
raises an error (a `ValueError` in the source, the spec's
`LengthMismatchError`).  Re-ordering clause: for duplicate-free
`files`, a permutation `modified_filenames` of `files`, and
`len(images) == len(files)`, the result places at position j the
element of `images` at the position that `modified_filenames[j]` holds
in `files`, and applying the function again with the roles of the two
filename lists exchanged (the inverse permutation) restores the
original `images`. -/
theorem updateImages_contract :
    (∀ (images : List AiImage) (files mf : List String),
      files ≠ [] →
      (images.length ≠ mf.length ∨ ∃ f, f ∈ mf ∧ f ∉ files) →
      ∃ e, updateImages images files (some mf) = .error e) ∧
    (∀ (images : List AiImage) (files mf : List String),
      files.Nodup → mf.Perm files → images.length = files.length →
      updateImages images files (some mf) =
        .ok (mf.map fun f => images.getD (idxD files f) dIm) ∧
      updateImages (mf.map fun f => images.getD (idxD files f) dIm) mf (some files) =
        .ok images) := by
  constructor
  · intro images files mf hf hbad
    have hf' : files.isEmpty = false := by
      cases files with
      | nil => exact absurd rfl hf
      | cons a t => rfl
    by_cases hl : images.length ≠ mf.length
    · exact ⟨.lengthMismatch, by simp [updateImages, hf', hl]⟩
    · push_neg at hl
      rcases hbad with hb | hb
      · exact absurd hl hb
      · rcases lookAll_err_of_not_mem files mf hb with ⟨g, hg⟩
        exact ⟨.nameNotFound g, by simp [updateImages, hf', hl, hg]⟩
  · intro images files mf hnd hperm hlen
    by_cases hfe : files = []
    · subst hfe
      have hmf : mf = [] := hperm.eq_nil
      have him : images = [] := List.length_eq_zero.mp (by simpa using hlen)
      subst hmf; subst him
      exact ⟨rfl, rfl⟩
    · have hf' : files.isEmpty = false := by
        cases files with
        | nil => exact absurd rfl hfe
        | cons a t => rfl
      have hmfe : mf ≠ [] := by
        intro h
        exact hfe ((h ▸ hperm : ([] : List String).Perm files).symm.eq_nil)
      have hm' : mf.isEmpty = false := by
        cases mf with
        | nil => exact absurd rfl hmfe
        | cons a t => rfl
      have hmm : ∀ f ∈ mf, f ∈ files := fun f hf0 => (hperm.mem_iff).mp hf0
      have hmm2 : ∀ g ∈ files, g ∈ mf := fun g hg => (hperm.mem_iff).mpr hg
      have hndmf : mf.Nodup := (List.Perm.nodup_iff hperm).mpr hnd
      have hlenmf : mf.length = files.length := hperm.length_eq
      have hEq : images.length = mf.length := by omega
      have hlook := lookAll_ok_of_mem files mf hmm
      have hidxlt : ∀ i ∈ mf.map (idxD files), i < images.length := by
        intro i hi
        rcases List.mem_map.mp hi with ⟨f, hfmem, hrfl⟩
        rcases pyIndex_mem files f (hmm f hfmem) with ⟨j, hj⟩
        rcases pyIndex_some files f j hj with ⟨hjl, _⟩
        have : idxD files f = j := by simp [idxD, hj]
        omega
      have hfetch := fetchAll_ok images (mf.map (idxD files)) hidxlt
      have key : updateImages images files (some mf) =
          fetchAll images (mf.map (idxD files)) := by
        simp [updateImages, hf', hEq, hlook, List.length_map]
      have hout : updateImages images files (some mf) =
          .ok (mf.map fun f => images.getD (idxD files f) dIm) := by
        rw [key, hfetch, List.map_map]
        rfl
      refine ⟨hout, ?_⟩
      set out := mf.map fun f => images.getD (idxD files f) dIm with hdefout
      have houtlen : out.length = files.length := by
        simp [hdefout, hlenmf]
      have hEq2 : out.length = files.length := houtlen
      have hlook2 := lookAll_ok_of_mem mf files hmm2
      have hidxlt2 : ∀ i ∈ files.map (idxD mf), i < out.length := by
        intro i hi
        rcases List.mem_map.mp hi with ⟨g, hgmem, hrfl⟩
        rcases pyIndex_mem mf g (hmm2 g hgmem) with ⟨j, hj⟩
        rcases pyIndex_some mf g j hj with ⟨hjl, _⟩
        have : idxD mf g = j := by simp [idxD, hj]
        omega
      have hfetch2 := fetchAll_ok out (files.map (idxD mf)) hidxlt2
      have key2 : updateImages out mf (some files) =
          fetchAll out (files.map (idxD mf)) := by
        simp [updateImages, hm', hEq2, hlenmf, hlook2, List.length_map]
      have hfinal : files.map (fun g => out.getD (idxD mf g) dIm) = images := by
        apply List.ext_get
        · simp [hlen]
        · intro k h1 h2
          have hk : k < files.length := by simpa using h1
          rw [List.get_map]
          set g := files.get ⟨k, hk⟩ with hgdef
          rcases pyIndex_mem mf g (hmm2 g (List.get_mem files k hk)) with ⟨j, hjeq⟩
          rcases pyIndex_some mf g j hjeq with ⟨hjl, hjget⟩
          have hidg : idxD mf g = j := by simp [idxD, hjeq]
          have hjout : j < out.length := by omega
          have hgoutD : out.getD j dIm = out.get ⟨j, hjout⟩ :=
            List.getD_eq_getElem out dIm hjout
          have hmfj : mf.get ⟨j, by omega⟩ = g := by
            have := List.getD_eq_getElem mf "" hjl
            rw [this] at hjget
            exact hjget
          have hout_getj : out.get ⟨j, hjout⟩ = images.getD (idxD files g) dIm := by
            have : out.get ⟨j, hjout⟩ =
                (fun f => images.getD (idxD files f) dIm) (mf.get ⟨j, by omega⟩) := by
              simp [hdefout, List.get_map]
            rw [this, hmfj]
          have hpk : pyIndex files g = some k := pyIndex_get_nodup files hnd k hk
          have hidk : idxD files g = k := by simp [idxD, hpk]
          have hkim : k < images.length := by omega
          have himk : images.getD k dIm = images.get ⟨k, hkim⟩ :=
            List.getD_eq_getElem images dIm hkim
          rw [hidg, hgoutD, hout_getj, hidk, himk]
      have : updateImages out mf (some files) =
          .ok (files.map fun g => out.getD (idxD mf g) dIm) := by
        rw [key2, hfetch2, List.map_map]
        rfl
      rw [this, hfinal]

/-- C2 counterexample.  First: with `files = []` the claimed failure
does not occur — the modified name "a" is absent from `files` and the
lengths differ, yet `_update_images` silently leaves the images
unchanged, because the guard of line 178 treats an empty `files` as
falsy and skips the whole body.  Second: with the duplicated filename
list `["a", "a"]`, re-ordering by the identity permutation maps
`[imA, imB]` to `[imA, imA]`, and applying it again (the inverse of
the identity is the identity) yields `[imA, imA]` again, not the
original `[imA, imB]`: the claimed round trip fails. -/
theorem updateImages_cex :
    updateImages ([] : List AiImage) [] (some ["a"]) = .ok [] ∧
    updateImages [imA, imB] ["a", "a"] (some ["a", "a"]) = .ok [imA, imA] ∧
    updateImages [imA, imA] ["a", "a"] (some ["a", "a"]) = .ok [imA, imA] ∧
    [imA, imA] ≠ [imA, imB] :=
  ⟨rfl, rfl, rfl, by decide⟩

/-- Witness for `updateImages_contract`: both parts applied at concrete
inputs — an absent modified name raises, and Scenario E's swap
`["y", "x"]` of `files = ["x", "y"]` reverses the two images. -/
theorem updateImages_contract_witness :
    updateImages [imA] ["a"] (some ["b"]) = .error (.nameNotFound "b") ∧
    updateImages [imA, imB] ["x", "y"] (some ["y", "x"]) = .ok [imB, imA] := by
  have h1 := updateImages_contract.1 [imA] ["a"] ["b"] (by decide)
    (Or.inr ⟨"b", by decide, by decide⟩)
  have h2 := (updateImages_contract.2 [imA, imB] ["x", "y"] ["y", "x"]
    (by decide) (by decide) rfl).1
  exact ⟨rfl, rfl⟩

/-- Modelled from the spec: AiCOCO category definition (name, id).  The
`flavor.serve.models` module (`AiCOCOFormat` and its element types) is
not among the analysed sources; fields follow the spec's Annotation
Output data model. -/
structure AiCategory where
  id : String
  name : String
deriving DecidableEq

/-- Modelled from the spec: AiCOCO regression-output definition. -/
structure AiRegression where
  id : String
  name : String
deriving DecidableEq

/-- Modelled from the spec: an AiCOCO annotation, a detection or
segmentation referencing an image id (`AiAnnotation` of the missing
models module). -/
structure AiAnnot where
  id : String
  image_id : String
deriving DecidableEq

/-- Modelled from the spec: an AiCOCO object grouping, linking to
categories and regressions. -/
structure AiObject where
  id : String
  category_ids : Option (List String)
  regressions : Option (List String)
deriving DecidableEq

/-- Modelled from the spec: the Annotation Output schema root
(`AiCOCOFormat`): images, annotations, categories, regressions,
objects, and a free-form metadata map. -/
structure AnnotationOutput where
  images : List AiImage
  annotations : List AiAnnot
  categories : List AiCategory
  regressions : List AiRegression
  objects : List AiObject
  meta : List (String × String)
deriving DecidableEq

/-- Modelled from the spec: the Annotation Output structural invariant —
every category/regression reference in any image or object, and every
image id referenced by an annotation, resolves to an entry of the
corresponding top-level list. -/
def schemaValid (o : AnnotationOutput) : Bool :=
  o.annotations.all (fun a => o.images.any (fun im => im.id = a.image_id)) &&
  o.images.all (fun im =>
    (im.category_ids.getD []).all (fun c => o.categories.any (fun cat => cat.id = c)) &&
    (im.regressions.getD []).all (fun r => o.regressions.any (fun reg => reg.id = r))) &&
  o.objects.all (fun ob =>
    (ob.category_ids.getD []).all (fun c => o.categories.any (fun cat => cat.id = c)) &&
    (ob.regressions.getD []).all (fun r => o.regressions.any (fun reg => reg.id = r)))

/-- The pluggable pieces a concrete `BaseAiCOCOImageInferenceModel`
supplies: the abstract `data_reader` and `output_formatter`, the
overridable `preprocess`/`postprocess`, the held network, and the
construction-time category and regression lists.  `K` is the type of
the extra named inputs forwarded verbatim, `D`/`M` the data and
metadata returned by the reader, `X`/`Y`/`Z` the intermediate value
types of the three processing stages. -/
structure InferenceParts (K D M X Y Z : Type) where
  dataReader : List String → List AiImage → K → D × Option (List String) × M
  preprocess : D → X
  network : X → Y
  postprocess : Y → M → Z
  outputFormatter : Z → List AiImage → List AiCategory → List AiRegression → AnnotationOutput
  categories : List AiCategory
  regressions : List AiRegression

/-- The error exits of `__call__` (lines 261-294): a `_set_images`
error, the `ValueError` of line 267 for a `None` image attribute, or a
`_update_images` error. -/
inductive CallError where
  | setImagesFailed (e : SetImagesError)
  | imagesNone
  | updateFailed (e : UpdateError)
deriving DecidableEq

/-- `BaseAiCOCOImageInferenceModel.__call__` (lines 261-294): resolve
the images, fail if the attribute is `None`, read the data, re-apply
the reported ordering, then preprocess → inference (the held network) →
postprocess → output_formatter.  The per-image `AiImage.model_validate`
loop of lines 269-277 always succeeds here because the embedding is
typed: every element of the resolved list is an `AiImage` by
construction. -/
def pipelineCall {K D M X Y Z : Type} (P : InferenceParts K D M X Y Z)
    (idGen : Nat → String) (files : List String) (images : List AiImage) (kw : K) :
    Except CallError AnnotationOutput :=
  match setImages idGen files images with
  | .error e => .error (.setImagesFailed e)
  | .ok (none, _) => .error .imagesNone
  | .ok (some imgs, _) =>
      match updateImages imgs files (P.dataReader files images kw).2.1 with
      | .error e => .error (.updateFailed e)
      | .ok imgs2 =>
          .ok (P.outputFormatter
            (P.postprocess (P.network (P.preprocess (P.dataReader files images kw).1))
              (P.dataReader files images kw).2.2)
            imgs2 P.categories P.regressions)

lemma setImages_ok_isSome (idGen : Nat → String) (files : List String)
    (images : List AiImage) (r : Option (List AiImage)) (w : Bool)
    (h : setImages idGen files images = .ok (r, w)) : r.isSome := by
  cases files with
  | cons f fs =>
      cases images with
      | nil =>
          simp [setImages] at h
          rw [← h.1]
          rfl
      | cons i is =>
          simp only [setImages, List.isEmpty_cons, Bool.not_false, Bool.and_self,
            if_true] at h
          by_cases hlen : (f :: fs).length = (i :: is).length
          · rw [if_pos hlen] at h
            cases hmf : matchFiles (i :: is) (f :: fs) with
            | ok v =>
                rw [hmf] at h
                simp [Except.map] at h
                rw [← h.1]
                rfl
            | error e => rw [hmf] at h; simp [Except.map] at h
          · rw [if_neg hlen] at h
            cases hb : (decide ((f :: fs).length = 1) && decide ((i :: is).length > 1)) with
            | true =>
                rw [hb] at h
                simp at h
                rw [← h.1]
                rfl
            | false => rw [hb] at h; simp at h
  | nil =>
      cases images with
      | nil =>
          simp [setImages] at h
          rw [← h.1]
          rfl
      | cons i is =>
          simp [setImages] at h
          rw [← h.1]
          rfl

/-- C9: `_set_images` always leaves the image attribute bound to an
actual list, never `None`; consequently the `ValueError` branch of
`__call__` guarding against a `None` attribute can never fire when the
attribute comes from `_set_images` itself. -/
theorem pipeline_images_never_none :
    (∀ (idGen : Nat → String) (files : List String) (images : List AiImage)
      (r : Option (List AiImage)) (w : Bool),
      setImages idGen files images = .ok (r, w) → r ≠ none) ∧
    (∀ {K D M X Y Z : Type} (P : InferenceParts K D M X Y Z) (idGen : Nat → String)
      (files : List String) (images : List AiImage) (kw : K),
      pipelineCall P idGen files images kw ≠ .error .imagesNone) := by
  constructor
  · intro idGen files images r w h
    have := setImages_ok_isSome idGen files images r w h
    intro hr
    rw [hr] at this
    exact absurd this (by decide)
  · intro K D M X Y Z P idGen files images kw
    unfold pipelineCall
    cases hs : setImages idGen files images with
    | error e => simp
    | ok pr =>
        obtain ⟨r, w⟩ := pr
        cases r with
        | none =>
            have := setImages_ok_isSome idGen files images none w hs
            exact absurd this (by decide)
        | some imgs =>
            cases hu : updateImages imgs files
                ((P.dataReader files images kw).2.1) with
            | error e => simp [hu]
            | ok imgs2 => simp [hu]

/-- A trivial concrete model used by the C9 witness. -/
def idleParts : InferenceParts Unit Unit Unit Unit Unit Unit :=
  { dataReader := fun _ _ _ => ((), none, ())
    preprocess := fun _ => ()
    network := fun _ => ()
    postprocess := fun _ _ => ()
    outputFormatter := fun _ _ _ _ =>
      { images := [], annotations := [], categories := [], regressions := [],
        objects := [], meta := [] }
    categories := []
    regressions := [] }

/-- Witness for `pipeline_images_never_none` at concrete inputs. -/
theorem pipeline_images_never_none_witness :
    (some [imA] : Option (List AiImage)) ≠ none ∧
    pipelineCall idleParts gId [] [imA] () ≠ .error .imagesNone :=
  ⟨pipeline_images_never_none.1 gId [] [imA] (some [imA]) false rfl,
   pipeline_images_never_none.2 idleParts gId [] [imA] ()⟩

lemma setImages_idGen_indep (g1 g2 : Nat → String) (files : List String)
    (images : List AiImage) (hi : images ≠ []) :
    setImages g1 files images = setImages g2 files images := by
  have hi' : images.isEmpty = false := by
    cases images with
    | nil => exact absurd rfl hi
    | cons a t => rfl
  cases files with
  | nil => simp [setImages, hi']
  | cons f fs => simp [setImages, hi']

/-- C7 (amended): with a non-empty `images` input (so that the
reconciler synthesizes no fresh ids), the pipeline output is
independent of the id source: two invocations with identical `files`,
`images`, and extra inputs — even across different `generate()`
randomness — produce identical results.  In the files-only shape the
claim fails, see the counterexample. -/
theorem pipeline_deterministic {K D M X Y Z : Type} (P : InferenceParts K D M X Y Z)
    (g1 g2 : Nat → String) (files : List String) (images : List AiImage) (kw : K)
    (hi : images ≠ []) :
    pipelineCall P g1 files images kw = pipelineCall P g2 files images kw := by
  unfold pipelineCall
  rw [setImages_idGen_indep g1 g2 files images hi]

/-- A concrete model whose formatter echoes the reconciled images into
the output; used by the C7 counterexample and witness. -/
def echoParts : InferenceParts Unit Unit Unit Unit Unit Unit :=
  { dataReader := fun _ _ _ => ((), none, ())
    preprocess := fun _ => ()
    network := fun _ => ()
    postprocess := fun _ _ => ()
    outputFormatter := fun _ imgs cats regs =>
      { images := imgs, annotations := [], categories := cats, regressions := regs,
        objects := [], meta := [] }
    categories := []
    regressions := [] }

/-- A first id source, standing for the `generate()` randomness of one
invocation. -/
def gP : Nat → String := fun _ => "p"

/-- A second id source, standing for the `generate()` randomness of a
later invocation. -/
def gQ : Nat → String := fun _ => "q"

/-- C7 counterexample: in the files-only shape the synthesized
descriptors carry freshly generated ids, so two invocations of the
pipeline on the identical input `files = ["a"]`, `images` absent, with
a deterministic reader, network and formatter, differ whenever the
`generate()` randomness differs — the claimed idempotence fails. -/
theorem pipeline_deterministic_cex :
    pipelineCall echoParts gP ["a"] [] () ≠ pipelineCall echoParts gQ ["a"] [] () := by
  intro h
  have h2 : ((fun r => match r with
      | Except.ok (o : AnnotationOutput) => (o.images.getD 0 dIm).id
      | Except.error _ => "") (pipelineCall echoParts gP ["a"] [] ()) : String) =
      ((fun r => match r with
      | Except.ok (o : AnnotationOutput) => (o.images.getD 0 dIm).id
      | Except.error _ => "") (pipelineCall echoParts gQ ["a"] [] ())) := by rw [h]
  have h3 : ("p" : String) = "q" := h2
  exact absurd h3 (by decide)

/-- Witness for `pipeline_deterministic` at a concrete input. -/
theorem pipeline_deterministic_witness :
    pipelineCall echoParts gP [] [imA] () = pipelineCall echoParts gQ [] [imA] () :=
  pipeline_deterministic echoParts gP gQ [] [imA] () (by decide)

/-- C3 (amended): `__call__` performs no validation of the formatter's
output; the returned Annotation Output is schema-valid provided the
supplied `output_formatter` honours its contract of always producing
schema-valid outputs — under that hypothesis, every successful
invocation returns a fully schema-valid result, and every other
invocation raises.  Without the hypothesis the claim fails, see the
counterexample. -/
theorem pipeline_schemaValid {K D M X Y Z : Type} (P : InferenceParts K D M X Y Z)
    (hF : ∀ (z : Z) (imgs : List AiImage),
      schemaValid (P.outputFormatter z imgs P.categories P.regressions) = true)
    (idGen : Nat → String) (files : List String) (images : List AiImage) (kw : K)
    (out : AnnotationOutput)
    (h : pipelineCall P idGen files images kw = .ok out) :
    schemaValid out = true := by
  unfold pipelineCall at h
  split at h
  · exact absurd h (by simp)
  · exact absurd h (by simp)
  · split at h
    · exact absurd h (by simp)
    · simp only [Except.ok.injEq] at h
      rw [← h]
      exact hF _ _

/-- A model whose formatter violates the output contract, emitting an
annotation that references a nonexistent image id. -/
def badParts : InferenceParts Unit Unit Unit Unit Unit Unit :=
  { dataReader := fun _ _ _ => ((), none, ())
    preprocess := fun _ => ()
    network := fun _ => ()
    postprocess := fun _ _ => ()
    outputFormatter := fun _ _ _ _ =>
      { images := [], annotations := [{ id := "a1", image_id := "ghost" }],
        categories := [], regressions := [], objects := [], meta := [] }
    categories := []
    regressions := [] }

/-- The dangling-reference output produced by `badParts`. -/
def badOut : AnnotationOutput :=
  { images := [], annotations := [{ id := "a1", image_id := "ghost" }],
    categories := [], regressions := [], objects := [], meta := [] }

/-- C3 counterexample: with a formatter that breaks its contract, the
invocation neither raises nor returns a schema-valid output — it
returns an Annotation Output whose annotation references an image id
absent from the top-level `images` list, so the claim as stated over
all invocations fails: `__call__` itself validates nothing on the way
out. -/
theorem pipeline_schemaValid_cex :
    pipelineCall badParts gId [] [imA] () = .ok badOut ∧
    schemaValid badOut = false :=
  ⟨rfl, rfl⟩

/-- A model with a constant contract-honouring formatter, used by the
C3 witness. -/
def okParts : InferenceParts Unit Unit Unit Unit Unit Unit :=
  { dataReader := fun _ _ _ => ((), none, ())
    preprocess := fun _ => ()
    network := fun _ => ()
    postprocess := fun _ _ => ()
    outputFormatter := fun _ _ _ _ =>
      { images := [imA], annotations := [{ id := "a1", image_id := "idA" }],
        categories := [], regressions := [], objects := [], meta := [] }
    categories := []
    regressions := [] }

/-- The schema-valid output produced by `okParts`. -/
def okOut : AnnotationOutput :=
  { images := [imA], annotations := [{ id := "a1", image_id := "idA" }],
    categories := [], regressions := [], objects := [], meta := [] }

/-- Witness for `pipeline_schemaValid` at a concrete input. -/
theorem pipeline_schemaValid_witness : schemaValid okOut = true :=
  pipeline_schemaValid okParts (fun _ _ => (by decide : schemaValid okOut = true))
    gId [] [imA] () okOut rfl

/-- The payload handed to `BaseAiCOCOImageInputDataModel`: the two
declared optional fields and the extra fields `K` a subclass may add
(forwarded untouched). -/
structure InputData (K : Type) where
  images : Option (List AiImage)
  files : Option (List String)
  extra : K

/-- Python truthiness of an optional sequence: `None` and the empty
list are falsy. -/
def truthyOptList {α : Type} : Option (List α) → Bool
  | none => false
  | some l => !l.isEmpty

/-- `BaseAiCOCOImageInputDataModel.check_images_files` (lines 44-50):
the `assert images or files` guard, reading only the two declared
keys. -/
def check_images_files {K : Type} (d : InputData K) : Bool :=
  truthyOptList d.images || truthyOptList d.files

/-- Constructing the input data model: the before-mode validator runs
first; on a failed assertion the construction raises
(`AssertionError`), embedded as `none`. -/
def mkInputModel {K : Type} (d : InputData K) : Option (InputData K) :=
  if check_images_files d then some d else none

lemma truthyOptList_iff {α : Type} (o : Option (List α)) :
    truthyOptList o = true ↔ ∃ l, o = some l ∧ l ≠ [] := by
  cases o with
  | none => simp [truthyOptList]
  | some l =>
      cases l with
      | nil => simp [truthyOptList]
      | cons a t => simp [truthyOptList]

/-- C10: constructing the input data model succeeds exactly when at
least one of `images`/`files` is present and non-empty (Python
truthiness), so every successfully constructed input carries a
non-empty `images` or `files`; and the check reads nothing but those
two fields — the extra fields of a subclass do not influence it. -/
theorem mkInputModel_spec {K : Type} (d : InputData K) :
    ((mkInputModel d).isSome ↔
      (∃ l, d.images = some l ∧ l ≠ []) ∨ (∃ l, d.files = some l ∧ l ≠ [])) ∧
    (∀ k1 k2 : K,
      check_images_files { d with extra := k1 } =
        check_images_files { d with extra := k2 }) := by
  constructor
  · by_cases hb : check_images_files d = true
    · have h1 : (mkInputModel d).isSome := by simp [mkInputModel, hb]
      have h2 : truthyOptList d.images = true ∨ truthyOptList d.files = true :=
        Bool.or_eq_true_iff.mp hb
      rcases h2 with h2 | h2
      · exact ⟨fun _ => Or.inl ((truthyOptList_iff d.images).mp h2), fun _ => h1⟩
      · exact ⟨fun _ => Or.inr ((truthyOptList_iff d.files).mp h2), fun _ => h1⟩
    · have hb' : check_images_files d = false := Bool.eq_false_iff.mpr hb
      have h1 : (mkInputModel d).isSome = false := by simp [mkInputModel, hb']
      constructor
      · intro h; rw [h1] at h; exact absurd h (by decide)
      · intro h
        exfalso
        apply hb
        rcases h with ⟨l, hl, hne⟩ | ⟨l, hl, hne⟩
        · have : truthyOptList d.images = true := (truthyOptList_iff d.images).mpr ⟨l, hl, hne⟩
          simp [check_images_files, this]
        · have : truthyOptList d.files = true := (truthyOptList_iff d.files).mpr ⟨l, hl, hne⟩
          simp [check_images_files, this]
  · intro k1 k2
    rfl

/-- Witness for `mkInputModel_spec` at a concrete input: a payload with
a non-empty `images`, no `files`, and a unit extra field constructs
successfully. -/
theorem mkInputModel_spec_witness :
    (mkInputModel { images := some [imA], files := none, extra := () }).isSome :=
  (mkInputModel_spec { images := some [imA], files := none, extra := () }).1.mpr
    (Or.inl ⟨[imA], rfl, by decide⟩)
